import Mathlib

/-!
# SecureBank: field-encryption codec and checksum validation toolkit

Shallow embedding of the confidential field codec (`src/utils/encryption.ts`:
`encryptSSN`, `decryptSSN`, `maskSSN`) and the checksum validation toolkit
(`src/components/FundingModal.tsx`: `validFormat`, `validCardType`,
`validRoutingNumber`; the date-of-birth validators of the signup form and
auth router), together with theorems settling the specification claims.

Modelling conventions:
* JS strings are lists of characters; the utf8 byte conversion used by the
  cipher is `Char.toNat` (faithful for the ASCII values these fields hold).
* A thrown JS exception is `none`; a returned value is `some`.
* The AES-256-CBC block cipher supplied by Node `crypto` is abstracted as a
  pair of functions `E`, `D` on 16-byte blocks with `D (E b) = b`; the random
  IV drawn by `crypto.randomBytes(16)` is an explicit parameter.  CBC
  chaining, PKCS#7 padding and hex (de)coding — the parts the repository's
  code composes — are embedded concretely below.
-/

namespace SecureBank

/-! ## Bytes and hex encoding -/

/-- Lowercase hex digit for a value below 16, as produced by Node
    `Buffer.prototype.toString('hex')`. -/
def natToHexDigit (n : Nat) : Char :=
  match n with
  | 0 => '0' | 1 => '1' | 2 => '2' | 3 => '3' | 4 => '4'
  | 5 => '5' | 6 => '6' | 7 => '7' | 8 => '8' | 9 => '9'
  | 10 => 'a' | 11 => 'b' | 12 => 'c' | 13 => 'd' | 14 => 'e'
  | _ => 'f'

/-- Value of one hex digit character (Node accepts both letter cases). -/
def hexDigitVal? (c : Char) : Option Nat :=
  if '0' ≤ c ∧ c ≤ '9' then some (c.toNat - 48)
  else if 'a' ≤ c ∧ c ≤ 'f' then some (c.toNat - 87)
  else if 'A' ≤ c ∧ c ≤ 'F' then some (c.toNat - 55)
  else none

/-- Hex encoding of a byte list, two lowercase digits per byte
    (`Buffer.prototype.toString('hex')`). -/
def bytesToHex (bs : List Nat) : List Char :=
  bs.flatMap (fun b => [natToHexDigit (b / 16), natToHexDigit (b % 16)])

/-- Node `Buffer.from(s, 'hex')`: decodes hex pairs from the start of the
    string and silently truncates at the first invalid character or at an
    unpaired trailing digit. -/
def hexDecode : List Char → List Nat
  | c1 :: c2 :: rest =>
    match hexDigitVal? c1, hexDigitVal? c2 with
    | some h, some l => (16 * h + l) :: hexDecode rest
    | _, _ => []
  | _ => []

/-- `s` is a well-formed hex string: even length, all hex digit characters. -/
def isHexStr (s : List Char) : Bool :=
  s.length % 2 = 0 && s.all (fun c => (hexDigitVal? c).isSome)

/-! ## JS string split on `':'` -/

/-- JS `String.prototype.split(':')` with a single-character separator.
    Always returns at least one part; `""` splits to `[""]`. -/
def splitColon : List Char → List (List Char)
  | [] => [[]]
  | c :: rest =>
    let r := splitColon rest
    if c = ':' then [] :: r
    else (c :: r.headD []) :: r.tail

/-! ## PKCS#7 padding (applied implicitly by Node AES-CBC) -/

/-- PKCS#7 padding to 16-byte blocks, as appended by `cipher.final`:
    `p = 16 - len % 16` bytes (always 1..16), each of value `p`. -/
def pkcs7pad (bs : List Nat) : List Nat :=
  bs ++ List.replicate (16 - bs.length % 16) (16 - bs.length % 16)

/-- PKCS#7 unpadding check performed by `decipher.final`; `none` models the
    bad-decrypt exception raised on invalid padding. -/
def pkcs7unpad (bs : List Nat) : Option (List Nat) :=
  match bs.getLast? with
  | none => none
  | some p =>
    if 1 ≤ p ∧ p ≤ 16 ∧ p ≤ bs.length ∧ (bs.drop (bs.length - p)).all (· = p)
    then some (bs.take (bs.length - p)) else none

/-! ## CBC mode over an abstract 16-byte block cipher -/

/-- Bytewise xor of two equal-length byte lists. -/
def xorBytes (a b : List Nat) : List Nat := List.zipWith (· ^^^ ·) a b

/-- Structurally recursive worker for `chunks16`: the fuel starts at the
    list length, which strictly bounds the number of blocks. -/
def chunks16Go : Nat → List Nat → List (List Nat)
  | 0, _ => []
  | fuel + 1, l => if l = [] then [] else l.take 16 :: chunks16Go fuel (l.drop 16)

/-- Split a byte list into 16-byte blocks (last block may be short if the
    length is not a multiple of 16; the pipeline only uses exact multiples). -/
def chunks16 (l : List Nat) : List (List Nat) := chunks16Go l.length l

/-- CBC encryption chaining: each plaintext block is xored with the previous
    ciphertext block (initially the IV) before the block cipher `E`. -/
def cbcEnc (E : List Nat → List Nat) (prev : List Nat) : List (List Nat) → List (List Nat)
  | [] => []
  | b :: rest =>
    let c := E (xorBytes b prev)
    c :: cbcEnc E c rest

/-- CBC decryption chaining with block cipher inverse `D`. -/
def cbcDec (D : List Nat → List Nat) (prev : List Nat) : List (List Nat) → List (List Nat)
  | [] => []
  | c :: rest => xorBytes (D c) prev :: cbcDec D c rest

/-! ## The confidential field codec (`src/utils/encryption.ts`) -/

/-- `encryptSSN` from `src/utils/encryption.ts`: draws a random 16-byte IV
    (here an explicit parameter `iv`), AES-256-CBC-encrypts the utf8 bytes of
    `ssn` (block cipher abstracted as `E`), and returns
    `hex(iv) + ":" + hex(ciphertext)`. -/
def encryptSSN (E : List Nat → List Nat) (iv : List Nat) (ssn : List Char) : List Char :=
  bytesToHex iv ++ ':' ::
    bytesToHex (List.flatten (cbcEnc E iv (chunks16 (pkcs7pad (ssn.map Char.toNat)))))

/-- `decryptSSN` from `src/utils/encryption.ts`: splits the stored string on
    `':'`, takes `parts[0]` as IV hex and `parts[1]` as ciphertext hex, and
    CBC-decrypts.  `none` models each way the original throws:
    `createDecipheriv` on an IV that is not 16 bytes, `update` on an
    undefined `parts[1]`, and `final` on a ciphertext that is empty, not a
    multiple of the block size, or has invalid PKCS#7 padding. -/
def decryptSSN (D : List Nat → List Nat) (stored : List Char) : Option (List Char) :=
  let parts := splitColon stored
  let iv := hexDecode (parts.headD [])
  if iv.length ≠ 16 then none
  else
    match parts[1]? with
    | none => none
    | some ctHex =>
      let ct := hexDecode ctHex
      if ct.length = 0 ∨ ct.length % 16 ≠ 0 then none
      else (pkcs7unpad (List.flatten (cbcDec D iv (chunks16 ct)))).map (·.map Char.ofNat)

/-- `maskSSN` from `src/utils/encryption.ts`: if the value contains the
    stored-format separator it is decrypted first, otherwise treated as
    legacy plaintext; returns `"***-**-"` followed by `slice(-4)`, the last
    `min 4 (length)` characters. -/
def maskSSN (D : List Nat → List Nat) (ssn : List Char) : Option (List Char) :=
  match (if ssn.contains ':' then decryptSSN D ssn else some ssn) with
  | none => none
  | some d => some ("***-**-".toList ++ d.drop (d.length - 4))

/-- The remainder of a string after its first `':'` — what the
    specification's decrypt description calls the ciphertext portion. -/
def afterFirstColon (s : List Char) : List Char := (s.dropWhile (· ≠ ':')).drop 1

/-- A stored value with a second separator and a non-hex character appended
    after a well-formed encryption. -/
def storedWithJunk : List Char :=
  encryptSSN id (List.replicate 16 0) ("123456789".toList) ++ [':', 'x']

/-- A stored value whose IV portion is malformed hex: two `'z'` characters
    follow the 32 hex digits of the IV, before the separator. -/
def storedBadIv : List Char :=
  bytesToHex (List.replicate 16 0) ++ 'z' :: 'z' ::
    (encryptSSN id (List.replicate 16 0) ("123456789".toList)).drop 32

/-- The part of a string before its first `':'` — what the specification's
    decrypt description parses as the IV. -/
def beforeFirstColon (s : List Char) : List Char := s.takeWhile (· ≠ ':')

/-! ## Checksum validation toolkit (`src/components/FundingModal.tsx`) -/

/-- Result of a react-hook-form validator: `true`, or an error message.
    Structural and checksum failures carry distinct messages. -/
inductive VResult where
  | valid : VResult
  | invalid : String → VResult
deriving DecidableEq

/-- The funding type selected in the modal. -/
inductive FundingType where
  | card : FundingType
  | bank : FundingType
deriving DecidableEq

/-- ASCII digit test (`\d` in the source regexes). -/
def isDigitChar (c : Char) : Bool := '0' ≤ c && c ≤ '9'

/-- Numeric value of an ASCII digit character (`parseInt` on one digit). -/
def digitVal (c : Char) : Nat := c.toNat - 48

/-- Characters matched by `[\s-]` in `value.replace(/[\s-]/g, '')`:
    the JS whitespace class plus the hyphen. -/
def isStrippedChar (c : Char) : Bool :=
  c = '-' || c.toNat ∈ [9, 10, 11, 12, 13, 32, 160, 5760, 8192, 8193, 8194,
    8195, 8196, 8197, 8198, 8199, 8200, 8201, 8202, 8232, 8233, 8239, 8287,
    12288, 65279]

/-- `value.replace(/[\s-]/g, '')`: strip whitespace and hyphens. -/
def cleanCard (value : List Char) : List Char :=
  value.filter (fun c => !isStrippedChar c)

/-- The Luhn loop from `validFormat`, run over the digit values right-to-left
    (the list here is already reversed): the flag starts false, so the
    rightmost digit is not doubled, and toggles each step; a doubled digit
    above 9 has 9 subtracted. -/
def luhnGo : List Nat → Bool → Nat
  | [], _ => 0
  | d :: rest, isEven =>
    (if isEven then (if d * 2 > 9 then d * 2 - 9 else d * 2) else d) + luhnGo rest (!isEven)

/-- Luhn sum of a digit string, iterating right-to-left as the source loop
    does. -/
def luhnSum (s : List Char) : Nat := luhnGo (s.reverse.map digitVal) false

/-- The `validFormat` validator: for cards, strip `[\s-]`, require 13-19
    digits (`/^\d{13,19}$/`), then the Luhn checksum; for bank accounts,
    require 4-17 digits. -/
def validFormat (fundingType : FundingType) (value : List Char) : VResult :=
  match fundingType with
  | .card =>
    let cleaned := cleanCard value
    if !(decide (13 ≤ cleaned.length) && decide (cleaned.length ≤ 19) && cleaned.all isDigitChar)
    then .invalid "Card number must be 13-19 digits"
    else if luhnSum cleaned % 10 ≠ 0 then .invalid "Invalid card number"
    else .valid
  | .bank =>
    if !(decide (4 ≤ value.length) && decide (value.length ≤ 17) && value.all isDigitChar)
    then .invalid "Account number must be 4-17 digits"
    else .valid

/-- `lo ≤ c ≤ hi`, one character class of an anchored regex. -/
def charInRange (lo hi c : Char) : Bool := lo ≤ c && c ≤ hi

/-- Anchored regex test: the string begins with characters lying in the given
    ranges, in order. -/
def startsRanges : List (Char × Char) → List Char → Bool
  | [], _ => true
  | _ :: _, [] => false
  | (lo, hi) :: ps, c :: cs => charInRange lo hi c && startsRanges ps cs

/-- The `validCardType` validator: brand acceptance by the source's regexes,
    transliterated range-for-range (comments give the source pattern). -/
def validCardType (fundingType : FundingType) (value : List Char) : VResult :=
  if fundingType ≠ .card then .valid
  else
    let cleaned := cleanCard value
    -- /^4/   (Visa)
    if startsRanges [('4', '4')] cleaned then .valid
    -- /^5[1-5]/   (Mastercard)
    else if startsRanges [('5', '5'), ('1', '5')] cleaned then .valid
    -- /^2(2[2-9][0-9]|[3-6][0-9]{2}|7[0-1][0-9]|720)/   (Mastercard)
    else if startsRanges [('2', '2'), ('2', '2'), ('2', '9'), ('0', '9')] cleaned
         || startsRanges [('2', '2'), ('3', '6'), ('0', '9'), ('0', '9')] cleaned
         || startsRanges [('2', '2'), ('7', '7'), ('0', '1'), ('0', '9')] cleaned
         || startsRanges [('2', '2'), ('7', '7'), ('2', '2'), ('0', '0')] cleaned then .valid
    -- /^3[47]/   (American Express)
    else if startsRanges [('3', '3'), ('4', '4')] cleaned
         || startsRanges [('3', '3'), ('7', '7')] cleaned then .valid
    -- /^6011/   (Discover)
    else if startsRanges [('6', '6'), ('0', '0'), ('1', '1'), ('1', '1')] cleaned then .valid
    -- /^62212[6-9]/
    else if startsRanges [('6', '6'), ('2', '2'), ('2', '2'), ('1', '1'), ('2', '2'), ('6', '9')] cleaned then .valid
    -- /^6229[01][0-9]/
    else if startsRanges [('6', '6'), ('2', '2'), ('2', '2'), ('9', '9'), ('0', '1'), ('0', '9')] cleaned then .valid
    -- /^622[2-8][0-9]{2}/
    else if startsRanges [('6', '6'), ('2', '2'), ('2', '2'), ('2', '8'), ('0', '9'), ('0', '9')] cleaned then .valid
    -- /^6229[2][0-5]/
    else if startsRanges [('6', '6'), ('2', '2'), ('2', '2'), ('9', '9'), ('2', '2'), ('0', '5')] cleaned then .valid
    -- /^64[4-9]/
    else if startsRanges [('6', '6'), ('4', '4'), ('4', '9')] cleaned then .valid
    -- /^65/
    else if startsRanges [('6', '6'), ('5', '5')] cleaned then .valid
    else .invalid "Card type not supported. We accept Visa, Mastercard, Amex, and Discover"

/-- The `validRoutingNumber` validator: required, exactly 9 digits
    (`/^\d{9}$/`), then the ABA weighted checksum
    `3*(d0+d3+d6) + 7*(d1+d4+d7) + 1*(d2+d5+d8)` taken mod 10. -/
def validRoutingNumber (fundingType : FundingType) (value : List Char) : VResult :=
  if fundingType ≠ .bank then .valid
  else if value = [] then .invalid "Routing number is required for bank transfers"
  else if !(decide (value.length = 9) && value.all isDigitChar)
  then .invalid "Routing number must be exactly 9 digits"
  else
    let digits := value.map digitVal
    let checksum := 3 * (digits.getD 0 0 + digits.getD 3 0 + digits.getD 6 0)
                  + 7 * (digits.getD 1 0 + digits.getD 4 0 + digits.getD 7 0)
                  + 1 * (digits.getD 2 0 + digits.getD 5 0 + digits.getD 8 0)
    if checksum % 10 ≠ 0 then .invalid "Invalid routing number"
    else .valid

/-- The exact unsupported-card message of the source. -/
def unsupportedMsg : String :=
  "Card type not supported. We accept Visa, Mastercard, Amex, and Discover"

/-! ## Card brand classification as the specification words it -/

/-- Card brands named by the specification. -/
inductive Brand where
  | visa | mastercard | amex | discover | unknown
deriving DecidableEq

/-- The first `k` characters read as a decimal number, when the string has at
    least `k` characters and they are all digits. -/
def leadNum? (k : Nat) (s : List Char) : Option Nat :=
  let t := s.take k
  if decide (t.length = k) && t.all isDigitChar
  then some (t.foldl (fun a c => 10 * a + digitVal c) 0) else none

/-- The string's first `k` digits read as a number lie in `lo..hi`. -/
def leadIn (k lo hi : Nat) (s : List Char) : Bool :=
  (leadNum? k s).any (fun n => decide (lo ≤ n) && decide (n ≤ hi))

/-- `classifyCard` as the specification section 4.2 words it: Visa prefixed
    4; Mastercard 51-55 or numeric range 2221-2720; Amex 34 or 37;
    Discover 6011, numeric range 622126-622925, 644-649, or 65.  Written from
    the spec's words to compare against the source's `validCardType`. -/
def classifyCard (s : List Char) : Brand :=
  if leadIn 1 4 4 s then .visa
  else if leadIn 2 51 55 s || leadIn 4 2221 2720 s then .mastercard
  else if leadIn 2 34 34 s || leadIn 2 37 37 s then .amex
  else if leadIn 4 6011 6011 s || leadIn 6 622126 622925 s
       || leadIn 3 644 649 s || leadIn 2 65 65 s then .discover
  else .unknown

/-! ## Date-of-birth validation -/

/-- A calendar date at date granularity (year, month 1-12, day); integer
    components so the source's arithmetic embeds directly. -/
structure YMD where
  y : Int
  m : Int
  d : Int
deriving DecidableEq

/-- JS `Date` comparison of two valid dates at date granularity:
    lexicographic on (year, month, day). -/
def ymdLt (a b : YMD) : Bool :=
  decide (a.y < b.y) || (decide (a.y = b.y)
    && (decide (a.m < b.m) || (decide (a.m = b.m) && decide (a.d < b.d))))

/-- The `notFuture` validator of the signup form: invalid when
    `selectedDate > today`. -/
def notFuture (dob today : YMD) : Bool := !(ymdLt today dob)

/-- The `minimumAge` validator of the signup form (18 hardcoded in the
    source): year difference, decremented when the month/day pair of `today`
    is before that of `dob`, compared against 18. -/
def minimumAge (dob today : YMD) : Bool :=
  let age := today.y - dob.y
  let monthDiff := today.m - dob.m
  let dayDiff := today.d - dob.d
  let exactAge := if monthDiff < 0 ∨ (monthDiff = 0 ∧ dayDiff < 0) then age - 1 else age
  !(decide (exactAge < 18))

/-- The `reasonable` validator of the signup form: raw year difference must
    not exceed 120. -/
def reasonableAge (dob today : YMD) : Bool := !(decide (today.y - dob.y > 120))

/-- The same age computation parameterised by the minimum, matching the
    spec's `ageAtLeast` signature; `minimumAge` is this check at 18. -/
def calendarAge (dob today : YMD) : Int :=
  let age := today.y - dob.y
  if today.m < dob.m ∨ (today.m = dob.m ∧ today.d < dob.d) then age - 1 else age

/-- A JS number that may be `NaN` (the getters of an Invalid Date).
    Every comparison involving `NaN` is false; arithmetic propagates it. -/
inductive JSNum where
  | nan : JSNum
  | num : Int → JSNum
deriving DecidableEq

/-- JS subtraction on possibly-`NaN` numbers. -/
def jsSub : JSNum → JSNum → JSNum
  | .num a, .num b => .num (a - b)
  | _, _ => .nan

/-- JS `<`: false whenever either side is `NaN`. -/
def jsLt : JSNum → JSNum → Bool
  | .num a, .num b => decide (a < b)
  | _, _ => false

/-- JS `===` on numbers: false whenever either side is `NaN`. -/
def jsEq : JSNum → JSNum → Bool
  | .num a, .num b => decide (a = b)
  | _, _ => false

/-- JS `>` via `<` with the sides swapped. -/
def jsGt (a b : JSNum) : Bool := jsLt b a

/-- `new Date(s)` on an unparseable string yields an Invalid Date, modelled
    as `none`; `getFullYear()` of an Invalid Date is `NaN`. -/
def jsGetFullYear : Option YMD → JSNum
  | none => .nan
  | some dte => .num dte.y

/-- `getMonth()` (model uses 1-12; only differences are taken). -/
def jsGetMonth : Option YMD → JSNum
  | none => .nan
  | some dte => .num dte.m

/-- `getDate()`. -/
def jsGetDate : Option YMD → JSNum
  | none => .nan
  | some dte => .num dte.d

/-- JS `>` on `Date` objects compares timestamps; any comparison with an
    Invalid Date (`NaN` timestamp) is false. -/
def jsDateGt : Option YMD → YMD → Bool
  | none, _ => false
  | some a, b => ymdLt b a

/-- The `dateOfBirth` zod refine of the auth router: future-date check,
    18+ check, and the age > 120 reasonableness check, sequenced exactly as
    in the source.  `dob = none` is the Invalid Date that `new Date`
    produces on an unparseable birth-date string. -/
def dateOfBirthRefine (dob : Option YMD) (today : YMD) : Bool :=
  if jsDateGt dob today then false
  else
    let age := jsSub (jsGetFullYear (some today)) (jsGetFullYear dob)
    let monthDiff := jsSub (jsGetMonth (some today)) (jsGetMonth dob)
    let dayDiff := jsSub (jsGetDate (some today)) (jsGetDate dob)
    let exactAge := if jsLt monthDiff (.num 0) || (jsEq monthDiff (.num 0) && jsLt dayDiff (.num 0))
                    then jsSub age (.num 1) else age
    if jsLt exactAge (.num 18) then false
    else if jsGt age (.num 120) then false
    else true

/-- Days in a calendar month (Gregorian leap rule). -/
def daysInMonth (y m : Int) : Int :=
  if m = 2 then (if (y % 4 = 0 ∧ y % 100 ≠ 0) ∨ y % 400 = 0 then 29 else 28)
  else if m = 4 ∨ m = 6 ∨ m = 9 ∨ m = 11 then 30
  else 31

/-- The calendar day after a date. -/
def nextDay (a : YMD) : YMD :=
  if a.d < daysInMonth a.y a.m then ⟨a.y, a.m, a.d + 1⟩
  else if a.m < 12 then ⟨a.y, a.m + 1, 1⟩
  else ⟨a.y + 1, 1, 1⟩

/-! ## Lemmas: hex coding -/

theorem hexDigitVal?_natToHexDigit : ∀ n < 16, hexDigitVal? (natToHexDigit n) = some n := by
  decide

theorem natToHexDigit_ne_colon : ∀ n < 16, natToHexDigit n ≠ ':' := by
  decide

theorem bytesToHex_cons (b : Nat) (rest : List Nat) :
    bytesToHex (b :: rest) = natToHexDigit (b / 16) :: natToHexDigit (b % 16) :: bytesToHex rest :=
  rfl

theorem hexDecode_bytesToHex (bs : List Nat) (h : ∀ b ∈ bs, b < 256) :
    hexDecode (bytesToHex bs) = bs := by
  induction bs with
  | nil => rfl
  | cons b rest ih =>
    have hb : b < 256 := h b (List.mem_cons_self b rest)
    have hdiv : b / 16 < 16 := Nat.div_lt_iff_lt_mul (by norm_num) |>.mpr hb
    have hmod : b % 16 < 16 := Nat.mod_lt b (by norm_num)
    rw [bytesToHex_cons]
    simp only [hexDecode, hexDigitVal?_natToHexDigit _ hdiv, hexDigitVal?_natToHexDigit _ hmod]
    rw [ih (fun x hx => h x (List.mem_cons_of_mem b hx))]
    congr 1
    omega

theorem length_bytesToHex (bs : List Nat) : (bytesToHex bs).length = 2 * bs.length := by
  induction bs with
  | nil => rfl
  | cons b rest ih =>
    rw [bytesToHex_cons]
    simp only [List.length_cons] at *
    omega

theorem colon_not_mem_bytesToHex (bs : List Nat) (h : ∀ b ∈ bs, b < 256) :
    ':' ∉ bytesToHex bs := by
  induction bs with
  | nil => simp [bytesToHex]
  | cons b rest ih =>
    have hb : b < 256 := h b (List.mem_cons_self b rest)
    have hdiv : b / 16 < 16 := Nat.div_lt_iff_lt_mul (by norm_num) |>.mpr hb
    have hmod : b % 16 < 16 := Nat.mod_lt b (by norm_num)
    rw [bytesToHex_cons]
    simp only [List.mem_cons, not_or]
    refine ⟨?_, ?_, ?_⟩
    · exact fun h => natToHexDigit_ne_colon _ hdiv h.symm
    · exact fun h => natToHexDigit_ne_colon _ hmod h.symm
    · exact ih (fun x hx => h x (List.mem_cons_of_mem b hx))

/-! ## Lemmas: splitting on the colon -/

theorem splitColon_cons (c : Char) (s : List Char) :
    splitColon (c :: s) =
      if c = ':' then [] :: splitColon s
      else (c :: (splitColon s).headD []) :: (splitColon s).tail :=
  rfl

theorem splitColon_ne_nil (s : List Char) : splitColon s ≠ [] := by
  cases s with
  | nil => simp [splitColon]
  | cons c rest =>
    rw [splitColon_cons]
    split <;> simp

theorem splitColon_of_no_colon (a : List Char) (h : ':' ∉ a) : splitColon a = [a] := by
  induction a with
  | nil => rfl
  | cons c rest ih =>
    have hc : c ≠ ':' := fun hh => h (hh ▸ List.mem_cons_self c rest)
    have hr : ':' ∉ rest := fun hh => h (List.mem_cons_of_mem c hh)
    rw [splitColon_cons, if_neg hc, ih hr]
    rfl

theorem splitColon_append (a b : List Char) (h : ':' ∉ a) :
    splitColon (a ++ ':' :: b) = a :: splitColon b := by
  induction a with
  | nil => simp [splitColon]
  | cons c rest ih =>
    have hc : c ≠ ':' := fun hh => h (hh ▸ List.mem_cons_self c rest)
    have hr : ':' ∉ rest := fun hh => h (List.mem_cons_of_mem c hh)
    rw [List.cons_append, splitColon_cons, if_neg hc, ih hr]
    rfl

/-! ## Lemmas: PKCS#7 padding -/

theorem pkcs7pad_padLen_pos (bs : List Nat) : 1 ≤ 16 - bs.length % 16 := by
  have := Nat.mod_lt bs.length (show 0 < 16 by norm_num)
  omega

theorem length_pkcs7pad (bs : List Nat) :
    (pkcs7pad bs).length = bs.length + (16 - bs.length % 16) := by
  simp [pkcs7pad]

theorem length_pkcs7pad_mod (bs : List Nat) : (pkcs7pad bs).length % 16 = 0 := by
  rw [length_pkcs7pad]
  omega

theorem pkcs7pad_ne_nil (bs : List Nat) : pkcs7pad bs ≠ [] := by
  intro h
  have h1 := pkcs7pad_padLen_pos bs
  have h2 := congrArg List.length h
  rw [length_pkcs7pad] at h2
  simp only [List.length_nil] at h2
  omega

theorem pkcs7unpad_eq (bs : List Nat) (p : Nat) (h : bs.getLast? = some p) :
    pkcs7unpad bs =
      if 1 ≤ p ∧ p ≤ 16 ∧ p ≤ bs.length ∧ (bs.drop (bs.length - p)).all (· = p)
      then some (bs.take (bs.length - p)) else none := by
  simp only [pkcs7unpad]
  rw [h]

theorem getLast?_replicate_succ (q x : Nat) :
    (List.replicate (q + 1) x).getLast? = some x := by
  rw [List.replicate_succ']
  simp

theorem pkcs7unpad_pkcs7pad (bs : List Nat) : pkcs7unpad (pkcs7pad bs) = some bs := by
  have hmod := Nat.mod_lt bs.length (show 0 < 16 by norm_num)
  have hp1 : 1 ≤ 16 - bs.length % 16 := pkcs7pad_padLen_pos bs
  have hlast : (pkcs7pad bs).getLast? = some (16 - bs.length % 16) := by
    rw [pkcs7pad, List.getLast?_append_of_ne_nil]
    · obtain ⟨q, hq⟩ : ∃ q, 16 - bs.length % 16 = q + 1 :=
        ⟨16 - bs.length % 16 - 1, by omega⟩
      rw [hq]
      exact getLast?_replicate_succ q _
    · intro h
      have h2 := congrArg List.length h
      simp only [List.length_replicate, List.length_nil] at h2
      omega
  have hlen : (pkcs7pad bs).length = bs.length + (16 - bs.length % 16) := length_pkcs7pad bs
  have hsub : (pkcs7pad bs).length - (16 - bs.length % 16) = bs.length := by omega
  have hdrop : (pkcs7pad bs).drop ((pkcs7pad bs).length - (16 - bs.length % 16)) =
      List.replicate (16 - bs.length % 16) (16 - bs.length % 16) := by
    rw [hsub, pkcs7pad]
    exact List.drop_left bs _
  have htake : (pkcs7pad bs).take ((pkcs7pad bs).length - (16 - bs.length % 16)) = bs := by
    rw [hsub, pkcs7pad]
    exact List.take_left bs _
  rw [pkcs7unpad_eq _ _ hlast, if_pos, htake]
  refine ⟨hp1, by omega, by omega, ?_⟩
  rw [hdrop]
  simp [List.all_eq_true]

/-! ## Lemmas: 16-byte chunking -/

theorem chunks16Go_congr :
    ∀ (f1 f2 : Nat) (l : List Nat), l.length ≤ f1 → l.length ≤ f2 →
      chunks16Go f1 l = chunks16Go f2 l := by
  intro f1
  induction f1 with
  | zero =>
    intro f2 l h1 _
    have hl : l = [] := List.length_eq_zero.mp (by omega)
    subst hl
    cases f2 <;> simp [chunks16Go]
  | succ n ih =>
    intro f2 l h1 h2
    cases f2 with
    | zero =>
      have hl : l = [] := List.length_eq_zero.mp (by omega)
      subst hl
      simp [chunks16Go]
    | succ m =>
      by_cases hl : l = []
      · subst hl
        simp [chunks16Go]
      · have hpos : 0 < l.length := List.length_pos.mpr hl
        simp only [chunks16Go, if_neg hl]
        congr 1
        exact ih m (l.drop 16) (by simp only [List.length_drop]; omega)
          (by simp only [List.length_drop]; omega)

theorem chunks16_nil : chunks16 [] = [] := rfl

theorem chunks16_eq (l : List Nat) (h : l ≠ []) :
    chunks16 l = l.take 16 :: chunks16 (l.drop 16) := by
  have hpos : 0 < l.length := List.length_pos.mpr h
  obtain ⟨n, hn⟩ : ∃ n, l.length = n + 1 := ⟨l.length - 1, by omega⟩
  rw [chunks16, chunks16, hn]
  simp only [chunks16Go, if_neg h]
  congr 1
  exact chunks16Go_congr n (l.drop 16).length (l.drop 16)
    (by simp only [List.length_drop]; omega) le_rfl

theorem flatten_chunks16 (l : List Nat) : (chunks16 l).flatten = l := by
  by_cases h : l = []
  · subst h
    simp [chunks16, chunks16Go]
  · rw [chunks16_eq l h, List.flatten_cons, flatten_chunks16 (l.drop 16)]
    exact List.take_append_drop 16 l
termination_by l.length
decreasing_by
  simp only [List.length_drop]
  exact Nat.sub_lt (List.length_pos.mpr h) (by norm_num)

theorem chunks16_mem_length (l : List Nat) (hdvd : 16 ∣ l.length) :
    ∀ c ∈ chunks16 l, c.length = 16 := by
  by_cases h : l = []
  · subst h
    simp [chunks16, chunks16Go]
  · rw [chunks16_eq l h]
    intro c hc
    obtain ⟨k, hk⟩ := hdvd
    have hpos : 0 < l.length := List.length_pos.mpr h
    have hlen : 16 ≤ l.length := by omega
    rcases List.mem_cons.mp hc with rfl | hc
    · rw [List.length_take]
      omega
    · exact chunks16_mem_length (l.drop 16)
        ⟨k - 1, by simp only [List.length_drop]; omega⟩ c hc
termination_by l.length
decreasing_by
  simp only [List.length_drop]
  exact Nat.sub_lt (List.length_pos.mpr h) (by norm_num)

theorem chunks16_mem_subset (l : List Nat) :
    ∀ c ∈ chunks16 l, ∀ x ∈ c, x ∈ l := by
  by_cases h : l = []
  · subst h
    simp [chunks16, chunks16Go]
  · rw [chunks16_eq l h]
    intro c hc x hx
    rcases List.mem_cons.mp hc with rfl | hc
    · exact List.take_subset 16 l hx
    · exact List.drop_subset 16 l (chunks16_mem_subset (l.drop 16) c hc x hx)
termination_by l.length
decreasing_by
  simp only [List.length_drop]
  exact Nat.sub_lt (List.length_pos.mpr h) (by norm_num)

theorem chunks16_flatten_blocks (bs : List (List Nat)) (h : ∀ b ∈ bs, b.length = 16) :
    chunks16 bs.flatten = bs := by
  induction bs with
  | nil => simp [chunks16, chunks16Go]
  | cons b rest ih =>
    have hb : b.length = 16 := h b (List.mem_cons_self b rest)
    rw [List.flatten_cons, chunks16_eq]
    · congr 1
      · rw [← hb]
        exact List.take_left b rest.flatten
      · rw [← hb, List.drop_left]
        exact ih (fun x hx => h x (List.mem_cons_of_mem b hx))
    · intro hcon
      have h2 := congrArg List.length hcon
      simp only [List.length_append, List.length_nil] at h2
      omega

theorem length_flatten_blocks (bs : List (List Nat)) (h : ∀ b ∈ bs, b.length = 16) :
    bs.flatten.length = 16 * bs.length := by
  induction bs with
  | nil => rfl
  | cons b rest ih =>
    have hb : b.length = 16 := h b (List.mem_cons_self b rest)
    rw [List.flatten_cons, List.length_append, hb,
      ih (fun x hx => h x (List.mem_cons_of_mem b hx)), List.length_cons]
    ring

/-! ## Lemmas: xor and CBC chaining -/

theorem length_xorBytes (a b : List Nat) :
    (xorBytes a b).length = min a.length b.length :=
  List.length_zipWith _ a b

theorem xorBytes_xorBytes (a b : List Nat) (h : a.length = b.length) :
    xorBytes (xorBytes a b) b = a := by
  induction a generalizing b with
  | nil => rfl
  | cons x a ih =>
    cases b with
    | nil => simp at h
    | cons y b =>
      simp only [xorBytes, List.zipWith_cons_cons]
      rw [Nat.xor_assoc, Nat.xor_self, Nat.xor_zero]
      congr 1
      exact ih b (by simpa using h)

theorem xorBytes_mem_lt (a b : List Nat) (ha : ∀ x ∈ a, x < 256) (hb : ∀ x ∈ b, x < 256) :
    ∀ x ∈ xorBytes a b, x < 256 := by
  induction a generalizing b with
  | nil => simp [xorBytes]
  | cons x a ih =>
    cases b with
    | nil => simp [xorBytes]
    | cons y b =>
      simp only [xorBytes, List.zipWith_cons_cons, List.mem_cons]
      rintro z (rfl | hz)
      · have hx : x < 2 ^ 8 := ha x (List.mem_cons_self x a)
        have hy : y < 2 ^ 8 := hb y (List.mem_cons_self y b)
        exact Nat.xor_lt_two_pow hx hy
      · exact ih b (fun u hu => ha u (List.mem_cons_of_mem x hu))
          (fun u hu => hb u (List.mem_cons_of_mem y hu)) z hz

theorem cbcDec_cbcEnc (E D : List Nat → List Nat)
    (hE : ∀ b, b.length = 16 → (E b).length = 16)
    (hD : ∀ b, b.length = 16 → D (E b) = b) :
    ∀ (bs : List (List Nat)) (prev : List Nat), (∀ b ∈ bs, b.length = 16) →
      prev.length = 16 → cbcDec D prev (cbcEnc E prev bs) = bs := by
  intro bs
  induction bs with
  | nil => intro prev _ _; rfl
  | cons b rest ih =>
    intro prev hlen hprev
    have hb : b.length = 16 := hlen b (List.mem_cons_self b rest)
    have hxor : (xorBytes b prev).length = 16 := by
      rw [length_xorBytes, hb, hprev]
      omega
    simp only [cbcEnc, cbcDec]
    rw [hD _ hxor]
    congr 1
    · exact xorBytes_xorBytes b prev (by rw [hb, hprev])
    · exact ih (E (xorBytes b prev))
        (fun x hx => hlen x (List.mem_cons_of_mem b hx)) (hE _ hxor)

theorem cbcEnc_mem_props (E : List Nat → List Nat)
    (hE : ∀ b, b.length = 16 → (E b).length = 16)
    (hEb : ∀ b, b.length = 16 → (∀ x ∈ b, x < 256) → ∀ x ∈ E b, x < 256) :
    ∀ (bs : List (List Nat)) (prev : List Nat),
      (∀ b ∈ bs, b.length = 16 ∧ ∀ x ∈ b, x < 256) →
      prev.length = 16 → (∀ x ∈ prev, x < 256) →
      ∀ c ∈ cbcEnc E prev bs, c.length = 16 ∧ ∀ x ∈ c, x < 256 := by
  intro bs
  induction bs with
  | nil => intro prev _ _ _ c hc; simp [cbcEnc] at hc
  | cons b rest ih =>
    intro prev hbs hprev hprevb c hc
    obtain ⟨hb, hbb⟩ := hbs b (List.mem_cons_self b rest)
    have hxor : (xorBytes b prev).length = 16 := by
      rw [length_xorBytes, hb, hprev]
      omega
    have hxorb : ∀ x ∈ xorBytes b prev, x < 256 := xorBytes_mem_lt b prev hbb hprevb
    have hcprops : (E (xorBytes b prev)).length = 16 ∧ ∀ x ∈ E (xorBytes b prev), x < 256 :=
      ⟨hE _ hxor, hEb _ hxor hxorb⟩
    simp only [cbcEnc, List.mem_cons] at hc
    rcases hc with rfl | hc
    · exact hcprops
    · exact ih (E (xorBytes b prev))
        (fun x hx => hbs x (List.mem_cons_of_mem b hx)) hcprops.1 hcprops.2 c hc

/-! ## The codec round trip -/

/-- Round trip of the full storage pipeline: decrypting an encryption recovers
    the plaintext, for any block cipher pair inverse on 16-byte blocks and any
    16-byte IV.  Shared backbone of the claims about the codec. -/
theorem decryptSSN_encryptSSN (E D : List Nat → List Nat)
    (hE : ∀ b, b.length = 16 → (E b).length = 16)
    (hEb : ∀ b, b.length = 16 → (∀ x ∈ b, x < 256) → ∀ x ∈ E b, x < 256)
    (hD : ∀ b, b.length = 16 → D (E b) = b)
    (iv : List Nat) (hiv : iv.length = 16) (hivb : ∀ x ∈ iv, x < 256)
    (ssn : List Char) (hssn : ∀ c ∈ ssn, c.toNat < 128) :
    decryptSSN D (encryptSSN E iv ssn) = some ssn := by
  have hmsgb : ∀ x ∈ ssn.map Char.toNat, x < 256 := by
    intro x hx
    obtain ⟨c, hc, rfl⟩ := List.mem_map.mp hx
    have := hssn c hc
    omega
  have hpadb : ∀ x ∈ pkcs7pad (ssn.map Char.toNat), x < 256 := by
    intro x hx
    rcases List.mem_append.mp hx with hx | hx
    · exact hmsgb x hx
    · have hx2 := List.eq_of_mem_replicate hx
      have hmod := Nat.mod_lt (ssn.map Char.toNat).length (show 0 < 16 by norm_num)
      omega
  have hdvd : 16 ∣ (pkcs7pad (ssn.map Char.toNat)).length :=
    Nat.dvd_of_mod_eq_zero (length_pkcs7pad_mod _)
  have hblen : ∀ b ∈ chunks16 (pkcs7pad (ssn.map Char.toNat)), b.length = 16 :=
    chunks16_mem_length _ hdvd
  have hbprops : ∀ b ∈ chunks16 (pkcs7pad (ssn.map Char.toNat)),
      b.length = 16 ∧ ∀ x ∈ b, x < 256 :=
    fun b hb => ⟨hblen b hb, fun x hx => hpadb x (chunks16_mem_subset _ b hb x hx)⟩
  have hctprops := cbcEnc_mem_props E hE hEb (chunks16 (pkcs7pad (ssn.map Char.toNat)))
    iv hbprops hiv hivb
  have hctlen : ∀ c ∈ cbcEnc E iv (chunks16 (pkcs7pad (ssn.map Char.toNat))), c.length = 16 :=
    fun c hc => (hctprops c hc).1
  have hctb : ∀ x ∈ (cbcEnc E iv (chunks16 (pkcs7pad (ssn.map Char.toNat)))).flatten, x < 256 := by
    intro x hx
    obtain ⟨c, hc, hxc⟩ := List.mem_flatten.mp hx
    exact (hctprops c hc).2 x hxc
  have hflatlen : (cbcEnc E iv (chunks16 (pkcs7pad (ssn.map Char.toNat)))).flatten.length
      = 16 * (cbcEnc E iv (chunks16 (pkcs7pad (ssn.map Char.toNat)))).length :=
    length_flatten_blocks _ hctlen
  have hchne : chunks16 (pkcs7pad (ssn.map Char.toNat)) ≠ [] := by
    rw [chunks16_eq _ (pkcs7pad_ne_nil _)]
    simp
  have hencne : cbcEnc E iv (chunks16 (pkcs7pad (ssn.map Char.toNat))) ≠ [] := by
    rcases hex : chunks16 (pkcs7pad (ssn.map Char.toNat)) with _ | ⟨b, rest⟩
    · exact absurd hex hchne
    · simp [cbcEnc]
  have hctlenpos : 0 < (cbcEnc E iv (chunks16 (pkcs7pad (ssn.map Char.toNat)))).flatten.length := by
    rw [hflatlen]
    have := List.length_pos.mpr hencne
    omega
  have hsplit : splitColon (encryptSSN E iv ssn) =
      [bytesToHex iv,
       bytesToHex (cbcEnc E iv (chunks16 (pkcs7pad (ssn.map Char.toNat)))).flatten] := by
    rw [encryptSSN, splitColon_append _ _ (colon_not_mem_bytesToHex iv hivb),
      splitColon_of_no_colon _ (colon_not_mem_bytesToHex _ hctb)]
  unfold decryptSSN
  rw [hsplit]
  simp only [List.headD_cons, List.getElem?_cons_succ, List.getElem?_cons_zero]
  rw [hexDecode_bytesToHex iv hivb, hexDecode_bytesToHex _ hctb, if_neg (by simp [hiv])]
  rw [if_neg, chunks16_flatten_blocks _ hctlen,
    cbcDec_cbcEnc E D hE hD _ iv hblen hiv, flatten_chunks16, pkcs7unpad_pkcs7pad]
  · simp only [Option.map_some', List.map_map]
    congr 1
    have h2 : ssn.map (Char.ofNat ∘ Char.toNat) = ssn.map id :=
      List.map_congr_left (fun c _ => Char.ofNat_toNat c)
    rw [h2]
    exact List.map_id ssn
  · rw [hflatlen]
    have := List.length_pos.mpr hencne
    push_neg
    constructor
    · omega
    · omega

/-! ## Claims about the codec -/

/-- C1: for every plaintext string P (ASCII, as the sensitive field is),
    decrypting the result of encrypting P with the process key yields P
    again — for whatever random 16-byte IV the encrypt call draws, and for
    any block-cipher pair (the abstraction of AES-256-CBC under the process
    key) that is inverse on 16-byte blocks. -/
theorem claim_C1_roundtrip (E D : List Nat → List Nat)
    (hE : ∀ b, b.length = 16 → (E b).length = 16)
    (hEb : ∀ b, b.length = 16 → (∀ x ∈ b, x < 256) → ∀ x ∈ E b, x < 256)
    (hD : ∀ b, b.length = 16 → D (E b) = b)
    (iv : List Nat) (hiv : iv.length = 16) (hivb : ∀ x ∈ iv, x < 256)
    (ssn : List Char) (hssn : ∀ c ∈ ssn, c.toNat < 128) :
    decryptSSN D (encryptSSN E iv ssn) = some ssn :=
  decryptSSN_encryptSSN E D hE hEb hD iv hiv hivb ssn hssn

/-- Witness for C1 at the identity block cipher, the zero IV and the SSN of
    the repository's tests. -/
theorem claim_C1_roundtrip_witness :
    decryptSSN id (encryptSSN id (List.replicate 16 0) ("123456789".toList)) =
      some ("123456789".toList) :=
  claim_C1_roundtrip id id (fun _ h => h) (fun _ _ hb => hb) (fun _ _ => rfl)
    (List.replicate 16 0) (by decide) (by decide) ("123456789".toList) (by decide)

/-- C6: each encrypt call returns `hex(IV) + ":" + hex(ciphertext)` for its
    freshly drawn IV, and two calls on the identical plaintext whose drawn
    IVs differ produce different stored strings, both of which decrypt back
    to the plaintext. -/
theorem claim_C6_nondeterminism (E D : List Nat → List Nat)
    (hE : ∀ b, b.length = 16 → (E b).length = 16)
    (hEb : ∀ b, b.length = 16 → (∀ x ∈ b, x < 256) → ∀ x ∈ E b, x < 256)
    (hD : ∀ b, b.length = 16 → D (E b) = b)
    (iv1 iv2 : List Nat) (hiv1 : iv1.length = 16) (hiv1b : ∀ x ∈ iv1, x < 256)
    (hiv2 : iv2.length = 16) (hiv2b : ∀ x ∈ iv2, x < 256) (hne : iv1 ≠ iv2)
    (ssn : List Char) (hssn : ∀ c ∈ ssn, c.toNat < 128) :
    encryptSSN E iv1 ssn = bytesToHex iv1 ++ ':' ::
        bytesToHex (cbcEnc E iv1 (chunks16 (pkcs7pad (ssn.map Char.toNat)))).flatten
    ∧ encryptSSN E iv1 ssn ≠ encryptSSN E iv2 ssn
    ∧ decryptSSN D (encryptSSN E iv1 ssn) = some ssn
    ∧ decryptSSN D (encryptSSN E iv2 ssn) = some ssn := by
  refine ⟨rfl, ?_, decryptSSN_encryptSSN E D hE hEb hD iv1 hiv1 hiv1b ssn hssn,
    decryptSSN_encryptSSN E D hE hEb hD iv2 hiv2 hiv2b ssn hssn⟩
  intro heq
  rw [encryptSSN, encryptSSN] at heq
  have hlen : (bytesToHex iv1).length = (bytesToHex iv2).length := by
    rw [length_bytesToHex, length_bytesToHex, hiv1, hiv2]
  have hpre := (List.append_inj heq hlen).1
  have : iv1 = iv2 := by
    rw [← hexDecode_bytesToHex iv1 hiv1b, ← hexDecode_bytesToHex iv2 hiv2b, hpre]
  exact hne this

/-- Witness for C6 at the identity block cipher and two distinct IVs. -/
theorem claim_C6_nondeterminism_witness :
    encryptSSN id (List.replicate 16 0) ("123456789".toList) ≠
      encryptSSN id (1 :: List.replicate 15 0) ("123456789".toList) :=
  (claim_C6_nondeterminism id id (fun _ h => h) (fun _ _ hb => hb) (fun _ _ => rfl)
    (List.replicate 16 0) (1 :: List.replicate 15 0) (by decide) (by decide)
    (by decide) (by decide) (by decide)
    ("123456789".toList) (by decide)).2.1

/-- C9: masking commutes with encryption — `maskSSN` of the stored form and
    of the plaintext form of the same value both yield `"***-**-"` followed
    by the value's last 4 characters, and neither raises. -/
theorem claim_C9_mask_stability (E D : List Nat → List Nat)
    (hE : ∀ b, b.length = 16 → (E b).length = 16)
    (hEb : ∀ b, b.length = 16 → (∀ x ∈ b, x < 256) → ∀ x ∈ E b, x < 256)
    (hD : ∀ b, b.length = 16 → D (E b) = b)
    (iv : List Nat) (hiv : iv.length = 16) (hivb : ∀ x ∈ iv, x < 256)
    (ssn : List Char) (hssn : ∀ c ∈ ssn, c.toNat < 128)
    (hcolon : ':' ∉ ssn) (hlen : 4 ≤ ssn.length) :
    maskSSN D (encryptSSN E iv ssn) = some ("***-**-".toList ++ ssn.drop (ssn.length - 4))
    ∧ maskSSN D ssn = some ("***-**-".toList ++ ssn.drop (ssn.length - 4))
    ∧ (ssn.drop (ssn.length - 4)).length = 4 := by
  have hmem : ':' ∈ encryptSSN E iv ssn := by
    rw [encryptSSN]
    exact List.mem_append.mpr (Or.inr (List.mem_cons_self _ _))
  have hcont : (encryptSSN E iv ssn).contains ':' = true := List.elem_iff.mpr hmem
  have hncont : ssn.contains ':' = false := by
    rw [Bool.eq_false_iff]
    intro hc
    exact hcolon (List.elem_iff.mp hc)
  refine ⟨?_, ?_, ?_⟩
  · rw [maskSSN, hcont, if_pos rfl, decryptSSN_encryptSSN E D hE hEb hD iv hiv hivb ssn hssn]
  · rw [maskSSN, hncont]
    simp
  · rw [List.length_drop]
    omega

/-- Witness for C9 at the identity block cipher and the test SSN. -/
theorem claim_C9_mask_stability_witness :
    maskSSN id ("123456789".toList) = some ("***-**-6789".toList) := by
  have h := (claim_C9_mask_stability id id (fun _ h => h) (fun _ _ hb => hb) (fun _ _ => rfl)
    (List.replicate 16 0) (by decide) (by decide)
    ("123456789".toList) (by decide) (by decide) (by decide)).2.1
  rw [h]
  decide

/-- C10: on any legacy value (no `':'`), `maskSSN` returns `"***-**-"`
    followed by the last `min 4 (length)` characters — so values of length
    at most 4 stay fully visible, and the empty string masks to exactly
    `"***-**-"`. -/
theorem claim_C10_mask_legacy (D : List Nat → List Nat) (s : List Char) (hcolon : ':' ∉ s) :
    maskSSN D s = some ("***-**-".toList ++ s.drop (s.length - 4))
    ∧ (s.drop (s.length - 4)).length = min 4 s.length
    ∧ maskSSN D [] = some ("***-**-".toList) := by
  have hncont : s.contains ':' = false := by
    rw [Bool.eq_false_iff]
    intro hc
    exact hcolon (List.elem_iff.mp hc)
  refine ⟨?_, ?_, ?_⟩
  · rw [maskSSN, hncont]
    simp
  · rw [List.length_drop]
    omega
  · rfl

/-- Witness for C10 on a 2-character legacy value: the whole value stays
    visible. -/
theorem claim_C10_mask_legacy_witness :
    maskSSN id ("12".toList) = some ("***-**-12".toList) := by
  have h := (claim_C10_mask_legacy id ("12".toList) (by decide)).1
  rw [h]
  decide

/-- Unfolding equation for `decryptSSN` used by the failure analysis. -/
theorem decryptSSN_eq (D : List Nat → List Nat) (stored : List Char) :
    decryptSSN D stored =
      if (hexDecode ((splitColon stored).headD [])).length ≠ 16 then none
      else
        match (splitColon stored)[1]? with
        | none => none
        | some ctHex =>
          if (hexDecode ctHex).length = 0 ∨ (hexDecode ctHex).length % 16 ≠ 0 then none
          else (pkcs7unpad (cbcDec D (hexDecode ((splitColon stored).headD []))
              (chunks16 (hexDecode ctHex))).flatten).map (·.map Char.ofNat) :=
  rfl

/-- C2 counterexample: the claim says decrypt fails with a `DecryptionError`
    whenever the IV is malformed or the ciphertext portion is tampered with.
    `storedBadIv` has a malformed IV field — `'z'` characters inside the part
    before the separator, which is not a hex string — yet `decryptSSN`
    succeeds and returns the plaintext: `Buffer.from(parts[0], 'hex')`
    silently truncates at the first invalid character, and the leading 32 hex
    digits already yield 16 bytes.  Likewise `storedWithJunk`, a stored value
    tampered with by appending `":x"`, still decrypts: the source reads
    `parts[1]` of `split(':')` and ignores everything after a second
    separator.  (This behaviour does not depend on the cipher; the identity
    block cipher instantiates the abstraction.) -/
theorem claim_C2_counterexample :
    decryptSSN id storedBadIv = some ("123456789".toList)
    ∧ isHexStr (beforeFirstColon storedBadIv) = false
    ∧ decryptSSN id storedWithJunk = some ("123456789".toList)
    ∧ isHexStr (afterFirstColon storedWithJunk) = false
    ∧ (':' ∈ storedWithJunk) := by
  refine ⟨by decide, by decide, by decide, by decide, by decide⟩

/-- C2 (amended): `decryptSSN` uses `parts[0]` and `parts[1]` of the split
    and ignores any later parts; it fails exactly when the first part does
    not hex-decode to 16 bytes, there is no second part, or the second
    part's bytes are empty, not a multiple of the block size, or decrypt to
    an invalid PKCS#7 padding (the only tamper detection CBC offers); a
    missing separator always fails. -/
theorem claim_C2_amended (D : List Nat → List Nat) (s : List Char) :
    (decryptSSN D s = none ↔
      (hexDecode ((splitColon s).headD [])).length ≠ 16
      ∨ (splitColon s)[1]? = none
      ∨ ∃ ctHex, (splitColon s)[1]? = some ctHex ∧
          ((hexDecode ctHex).length = 0 ∨ (hexDecode ctHex).length % 16 ≠ 0
           ∨ pkcs7unpad (cbcDec D (hexDecode ((splitColon s).headD []))
               (chunks16 (hexDecode ctHex))).flatten = none))
    ∧ (':' ∉ s → decryptSSN D s = none)
    ∧ (∀ a b r : List Char, ':' ∉ a → ':' ∉ b →
        decryptSSN D (a ++ ':' :: (b ++ ':' :: r)) = decryptSSN D (a ++ ':' :: b)) := by
  refine ⟨?_, ?_, ?_⟩
  · rw [decryptSSN_eq]
    by_cases h1 : (hexDecode ((splitColon s).headD [])).length ≠ 16
    · rw [if_pos h1]
      exact iff_of_true rfl (Or.inl h1)
    · rw [if_neg h1]
      cases h2 : (splitColon s)[1]? with
      | none => exact iff_of_true rfl (Or.inr (Or.inl rfl))
      | some ctHex =>
        show (if (hexDecode ctHex).length = 0 ∨ (hexDecode ctHex).length % 16 ≠ 0 then none
            else (pkcs7unpad (cbcDec D (hexDecode ((splitColon s).headD []))
                (chunks16 (hexDecode ctHex))).flatten).map (fun x => x.map Char.ofNat)) = none
          ↔ _
        by_cases h3 : (hexDecode ctHex).length = 0 ∨ (hexDecode ctHex).length % 16 ≠ 0
        · rw [if_pos h3]
          exact iff_of_true rfl (Or.inr (Or.inr ⟨ctHex, rfl, h3.imp id Or.inl⟩))
        · rw [if_neg h3, Option.map_eq_none']
          constructor
          · intro hu
            exact Or.inr (Or.inr ⟨ctHex, rfl, Or.inr (Or.inr hu)⟩)
          · rintro (hbad | hbad | ⟨c, hc, hcase⟩)
            · exact absurd hbad h1
            · exact absurd hbad (Option.some_ne_none ctHex)
            · obtain rfl : ctHex = c := Option.some.inj hc
              rcases hcase with hc0 | hcmod | hu
              · exact absurd (Or.inl hc0) h3
              · exact absurd (Or.inr hcmod) h3
              · exact hu
  · intro hnc
    unfold decryptSSN
    rw [splitColon_of_no_colon s hnc]
    simp
  · intro a b r ha hb
    unfold decryptSSN
    rw [splitColon_append a _ ha, splitColon_append b r hb,
      splitColon_append a _ ha, splitColon_of_no_colon b hb]
    simp only [List.headD_cons, List.getElem?_cons_succ, List.getElem?_cons_zero]

/-- Witness for C2 (amended): a value with no separator fails to decrypt. -/
theorem claim_C2_amended_witness : decryptSSN id ("legacy123".toList) = none :=
  (claim_C2_amended id ("legacy123".toList)).2.1 (by decide)

/-! ## Claims about the validation toolkit -/

/-- Unfolding equation for the card branch of `validFormat`. -/
theorem validFormat_card_eq (s : List Char) :
    validFormat .card s =
      if (!(decide (13 ≤ (cleanCard s).length) && decide ((cleanCard s).length ≤ 19)
          && (cleanCard s).all isDigitChar)) = true
      then .invalid "Card number must be 13-19 digits"
      else if luhnSum (cleanCard s) % 10 ≠ 0 then .invalid "Invalid card number"
      else .valid :=
  rfl

/-- Unfolding equation for the bank branch of `validRoutingNumber`. -/
theorem validRoutingNumber_bank_eq (s : List Char) :
    validRoutingNumber .bank s =
      if s = [] then .invalid "Routing number is required for bank transfers"
      else if (!(decide (s.length = 9) && s.all isDigitChar)) = true
      then .invalid "Routing number must be exactly 9 digits"
      else if (3 * ((s.map digitVal).getD 0 0 + (s.map digitVal).getD 3 0
                    + (s.map digitVal).getD 6 0)
             + 7 * ((s.map digitVal).getD 1 0 + (s.map digitVal).getD 4 0
                    + (s.map digitVal).getD 7 0)
             + 1 * ((s.map digitVal).getD 2 0 + (s.map digitVal).getD 5 0
                    + (s.map digitVal).getD 8 0)) % 10 ≠ 0
      then .invalid "Invalid routing number"
      else .valid :=
  rfl

/-- `validFormat` for cards accepts exactly the values whose cleaned form is
    13-19 digits with a Luhn sum divisible by 10. -/
theorem validFormat_card_valid_iff (s : List Char) :
    validFormat .card s = .valid ↔
      ((cleanCard s).all isDigitChar ∧ 13 ≤ (cleanCard s).length ∧ (cleanCard s).length ≤ 19
        ∧ luhnSum (cleanCard s) % 10 = 0) := by
  unfold validFormat
  by_cases hb : (decide (13 ≤ (cleanCard s).length) && decide ((cleanCard s).length ≤ 19)
      && (cleanCard s).all isDigitChar) = true
  · rw [if_neg (by simp [hb])]
    simp only [Bool.and_eq_true, decide_eq_true_eq] at hb
    obtain ⟨⟨h13, h19⟩, hall⟩ := hb
    by_cases hl : luhnSum (cleanCard s) % 10 = 0
    · rw [if_neg (not_ne_iff.mpr hl)]
      simp [hall, h13, h19, hl]
    · rw [if_pos hl]
      simp [hl]
  · rw [if_pos (by simp only [Bool.not_eq_true'] at *; simpa using hb)]
    simp only [Bool.and_eq_true, decide_eq_true_eq, not_and] at hb
    constructor
    · intro hcon
      exact absurd hcon (by simp)
    · rintro ⟨hall, h13, h19, _⟩
      exact absurd (And.intro (And.intro h13 h19) hall) (by tauto)

/-- C7 counterexample: a hyphen-separated card number contains non-digit
    characters, yet the validator accepts it — the source strips `[\s-]`
    before validating, so "any input containing a non-digit character is
    rejected as invalid" fails as stated. -/
theorem claim_C7_counterexample :
    validFormat .card ("4532-0151-1283-0366".toList) = .valid
    ∧ ("4532-0151-1283-0366".toList).all isDigitChar = false := by
  refine ⟨by decide, by decide⟩

/-- C7 (amended): after stripping whitespace and hyphens, the Luhn validator
    returns valid iff the cleaned input is 13-19 ASCII digits whose Luhn sum
    (right-to-left, doubling every second digit from the second-from-rightmost
    and subtracting 9 above 9) is divisible by 10; any other input yields one
    of the two invalid results, never an exception; `4532015112830366` is
    valid and `4532015112830367` is invalid. -/
theorem claim_C7_amended (s : List Char) :
    (validFormat .card s = .valid ↔
      ((cleanCard s).all isDigitChar ∧ 13 ≤ (cleanCard s).length ∧ (cleanCard s).length ≤ 19
        ∧ luhnSum (cleanCard s) % 10 = 0))
    ∧ (validFormat .card s = .valid
       ∨ validFormat .card s = .invalid "Card number must be 13-19 digits"
       ∨ validFormat .card s = .invalid "Invalid card number")
    ∧ validFormat .card ("4532015112830366".toList) = .valid
    ∧ validFormat .card ("4532015112830367".toList) = .invalid "Invalid card number" := by
  refine ⟨validFormat_card_valid_iff s, ?_, by decide, by decide⟩
  rw [validFormat_card_eq]
  split
  · exact Or.inr (Or.inl rfl)
  · split
    · exact Or.inr (Or.inr rfl)
    · exact Or.inl rfl

/-- Witness for C7 (amended) at the specification's test card number. -/
theorem claim_C7_amended_witness :
    validFormat .card ("4532015112830366".toList) = .valid
    ∧ validFormat .card ("4532015112830367".toList) = .invalid "Invalid card number" :=
  ⟨(claim_C7_amended ("4532015112830366".toList)).2.2.1,
   (claim_C7_amended ("4532015112830367".toList)).2.2.2⟩

/-- C8: the routing-number validator accepts exactly 9-ASCII-digit strings
    whose ABA weighted sum `3*(d0+d3+d6) + 7*(d1+d4+d7) + 1*(d2+d5+d8)`
    (digits left-to-right) is divisible by 10; `021000021` is valid and
    `123456789` fails the checksum. -/
theorem claim_C8_routing (s : List Char) :
    (validRoutingNumber .bank s = .valid ↔
      ∃ d0 d1 d2 d3 d4 d5 d6 d7 d8 : Char,
        s = [d0, d1, d2, d3, d4, d5, d6, d7, d8] ∧ (∀ c ∈ s, isDigitChar c) ∧
        (3 * (digitVal d0 + digitVal d3 + digitVal d6)
         + 7 * (digitVal d1 + digitVal d4 + digitVal d7)
         + 1 * (digitVal d2 + digitVal d5 + digitVal d8)) % 10 = 0)
    ∧ validRoutingNumber .bank ("021000021".toList) = .valid
    ∧ validRoutingNumber .bank ("123456789".toList) = .invalid "Invalid routing number" := by
  refine ⟨?_, by decide, by decide⟩
  constructor
  · intro hv
    rw [validRoutingNumber_bank_eq] at hv
    by_cases hnil : s = []
    · rw [if_pos hnil] at hv
      exact absurd hv (by simp)
    · rw [if_neg hnil] at hv
      by_cases hstr : (decide (s.length = 9) && s.all isDigitChar) = true
      · rw [if_neg (by simp [hstr])] at hv
        simp only [Bool.and_eq_true, decide_eq_true_eq] at hstr
        obtain ⟨hlen, hall⟩ := hstr
        rcases s with _ | ⟨d0, s⟩
        · simp at hlen
        rcases s with _ | ⟨d1, s⟩
        · simp at hlen
        rcases s with _ | ⟨d2, s⟩
        · simp at hlen
        rcases s with _ | ⟨d3, s⟩
        · simp at hlen
        rcases s with _ | ⟨d4, s⟩
        · simp at hlen
        rcases s with _ | ⟨d5, s⟩
        · simp at hlen
        rcases s with _ | ⟨d6, s⟩
        · simp at hlen
        rcases s with _ | ⟨d7, s⟩
        · simp at hlen
        rcases s with _ | ⟨d8, s⟩
        · simp at hlen
        rcases s with _ | ⟨d9, s⟩
        swap
        · simp at hlen
        simp only [List.map_cons, List.map_nil, List.getD_cons_zero,
          List.getD_cons_succ] at hv
        refine ⟨d0, d1, d2, d3, d4, d5, d6, d7, d8, rfl,
          fun c hc => List.all_eq_true.mp hall c hc, ?_⟩
        by_cases hcs : (3 * (digitVal d0 + digitVal d3 + digitVal d6)
            + 7 * (digitVal d1 + digitVal d4 + digitVal d7)
            + 1 * (digitVal d2 + digitVal d5 + digitVal d8)) % 10 = 0
        · exact hcs
        · rw [if_pos hcs] at hv
          exact absurd hv (by simp)
      · rw [if_pos (by simp only [Bool.not_eq_true'] at *; simpa using hstr)] at hv
        exact absurd hv (by simp)
  · rintro ⟨d0, d1, d2, d3, d4, d5, d6, d7, d8, rfl, hdig, hsum⟩
    have hX : (decide (([d0, d1, d2, d3, d4, d5, d6, d7, d8] : List Char).length = 9)
        && ([d0, d1, d2, d3, d4, d5, d6, d7, d8] : List Char).all isDigitChar) = true := by
      rw [Bool.and_eq_true]
      exact ⟨by simp, List.all_eq_true.mpr hdig⟩
    rw [validRoutingNumber_bank_eq, if_neg (by simp), if_neg (by rw [hX]; decide)]
    simp only [List.map_cons, List.map_nil, List.getD_cons_zero, List.getD_cons_succ]
    rw [if_neg (not_ne_iff.mpr hsum)]

/-- Witness for C8 at the specification's routing numbers. -/
theorem claim_C8_routing_witness :
    validRoutingNumber .bank ("021000021".toList) = .valid
    ∧ validRoutingNumber .bank ("123456789".toList) = .invalid "Invalid routing number" :=
  ⟨(claim_C8_routing ("021000021".toList)).2.1,
   (claim_C8_routing ("123456789".toList)).2.2⟩

/-- C3: the brand regexes of `validCardType` contradict the ranges stated in
    the spec, in the source's own comments, and in `src/docs`: prefix `2220`
    is accepted as Mastercard although the stated range starts at `2221`, and
    prefixes `622130`-`622199` are rejected although the stated Discover
    range `622126`-`622925` contains them.  `classifyCard`, written from the
    spec's ranges, disagrees with the code exactly there; the surrounding
    range endpoints agree, and a Luhn-valid number with unknown prefix 99 is
    still rejected by the brand check. -/
theorem claim_C3_brand_ranges :
    validCardType .card ("2220000000000000".toList) = .valid
    ∧ classifyCard ("2220000000000000".toList) = .unknown
    ∧ validCardType .card ("6221300000000000".toList) = .invalid unsupportedMsg
    ∧ classifyCard ("6221300000000000".toList) = .discover
    ∧ validCardType .card ("2221000000000000".toList) = .valid
    ∧ validCardType .card ("2720990000000000".toList) = .valid
    ∧ validCardType .card ("2721000000000000".toList) = .invalid unsupportedMsg
    ∧ validCardType .card ("6221260000000000".toList) = .valid
    ∧ validCardType .card ("6229250000000000".toList) = .valid
    ∧ validCardType .card ("6229260000000000".toList) = .invalid unsupportedMsg
    ∧ validFormat .card ("9912345678901239".toList) = .valid
    ∧ validCardType .card ("9912345678901239".toList) = .invalid unsupportedMsg := by
  refine ⟨by decide, by decide, by decide, by decide, by decide, by decide,
    by decide, by decide, by decide, by decide, by decide, by decide⟩

/-- C4 counterexample: on an unparseable birth-date string, `new Date` yields
    an Invalid Date (modelled `none`), every `NaN` comparison in the refine is
    false, and the validator ACCEPTS — the claim requires a definite
    false/invalid result for malformed input. -/
theorem claim_C4_counterexample :
    dateOfBirthRefine none ⟨2025, 10, 12⟩ = true := by
  decide

/-- C4 (amended): the card and routing validators are total and return a
    definite structural-invalid result on malformed input, with structural
    reasons distinct from checksum reasons; the birth-date refine is total
    and never throws, but it ACCEPTS an unparseable birth-date string (the
    Invalid Date's `NaN` getters defeat every rejection branch) instead of
    rejecting it. -/
theorem claim_C4_amended :
    (∀ s : List Char, ¬(13 ≤ (cleanCard s).length ∧ (cleanCard s).length ≤ 19
        ∧ (cleanCard s).all isDigitChar) →
      validFormat .card s = .invalid "Card number must be 13-19 digits")
    ∧ (∀ s : List Char, s ≠ [] → ¬(s.length = 9 ∧ s.all isDigitChar) →
      validRoutingNumber .bank s = .invalid "Routing number must be exactly 9 digits")
    ∧ validRoutingNumber .bank [] = .invalid "Routing number is required for bank transfers"
    ∧ "Card number must be 13-19 digits" ≠ "Invalid card number"
    ∧ "Routing number must be exactly 9 digits" ≠ "Invalid routing number"
    ∧ (∀ today : YMD, dateOfBirthRefine none today = true) := by
  refine ⟨?_, ?_, by decide, by decide, by decide, fun _ => rfl⟩
  · intro s hmal
    rw [validFormat_card_eq, if_pos]
    simp only [Bool.not_eq_true', Bool.and_eq_false_iff, decide_eq_false_iff_not]
    by_cases h13 : 13 ≤ (cleanCard s).length
    · by_cases h19 : (cleanCard s).length ≤ 19
      · by_cases hall : (cleanCard s).all isDigitChar = true
        · exact absurd ⟨h13, h19, hall⟩ hmal
        · exact Or.inr (Bool.eq_false_iff.mpr hall)
      · exact Or.inl (Or.inr h19)
    · exact Or.inl (Or.inl h13)
  · intro s hne hmal
    rw [validRoutingNumber_bank_eq, if_neg hne, if_pos]
    simp only [Bool.not_eq_true', Bool.and_eq_false_iff, decide_eq_false_iff_not]
    by_cases hlen : s.length = 9
    · by_cases hall : s.all isDigitChar = true
      · exact absurd ⟨hlen, hall⟩ hmal
      · exact Or.inr (Bool.eq_false_iff.mpr hall)
    · exact Or.inl hlen

/-- Witness for C4 (amended) at concrete malformed inputs. -/
theorem claim_C4_amended_witness :
    validFormat .card ("12ab".toList) = .invalid "Card number must be 13-19 digits"
    ∧ validRoutingNumber .bank ("12345".toList)
        = .invalid "Routing number must be exactly 9 digits" :=
  ⟨claim_C4_amended.1 ("12ab".toList) (by decide),
   claim_C4_amended.2.1 ("12345".toList) (by decide) (by decide)⟩

/-- Unfolding equation for `minimumAge`, lets expanded. -/
theorem minimumAge_eq (dob today : YMD) :
    minimumAge dob today =
      !(decide ((if today.m - dob.m < 0 ∨ (today.m - dob.m = 0 ∧ today.d - dob.d < 0)
          then today.y - dob.y - 1 else today.y - dob.y) < 18)) :=
  rfl

/-- Unfolding equation for `calendarAge`, lets expanded. -/
theorem calendarAge_eq (dob today : YMD) :
    calendarAge dob today =
      if today.m < dob.m ∨ (today.m = dob.m ∧ today.d < dob.d)
      then today.y - dob.y - 1 else today.y - dob.y :=
  rfl

/-- The minimum-age comparison of the source equals the spec's calendar-age
    formula compared against 18. -/
theorem minimumAge_eq_calendarAge (dob today : YMD) :
    minimumAge dob today = decide (18 ≤ calendarAge dob today) := by
  rw [minimumAge_eq, calendarAge_eq, ← decide_not, decide_eq_decide]
  by_cases h1 : today.m - dob.m < 0 ∨ (today.m - dob.m = 0 ∧ today.d - dob.d < 0)
  · rw [if_pos h1, if_pos (show today.m < dob.m ∨ (today.m = dob.m ∧ today.d < dob.d) by omega)]
    omega
  · rw [if_neg h1,
      if_neg (show ¬(today.m < dob.m ∨ (today.m = dob.m ∧ today.d < dob.d)) by omega)]
    omega

/-- C5: the age-eligibility check of the signup form (`notFuture` gate plus
    `minimumAge`, with the source's minimum of 18): for every birth date not
    after the reference date it accepts exactly when the computed calendar
    age (year difference, minus 1 when the reference month/day pair precedes
    the birth month/day pair) is at least 18; it returns false for every
    birth date strictly after the reference date; a birth date exactly 18
    years before (same month and day) is accepted, and the calendar day after
    that boundary date is rejected. -/
theorem claim_C5_age (dob today : YMD) :
    (ymdLt today dob = false →
      ((notFuture dob today && minimumAge dob today) = true ↔ 18 ≤ calendarAge dob today))
    ∧ (ymdLt today dob = true → (notFuture dob today && minimumAge dob today) = false)
    ∧ (notFuture ⟨today.y - 18, today.m, today.d⟩ today
        && minimumAge ⟨today.y - 18, today.m, today.d⟩ today) = true
    ∧ (notFuture (nextDay ⟨today.y - 18, today.m, today.d⟩) today
        && minimumAge (nextDay ⟨today.y - 18, today.m, today.d⟩) today) = false := by
  refine ⟨?_, ?_, ?_, ?_⟩
  · intro hG
    rw [notFuture, hG, Bool.not_false, Bool.true_and, minimumAge_eq_calendarAge]
    exact decide_eq_true_iff
  · intro hG
    rw [notFuture, hG, Bool.not_true, Bool.false_and]
  · have hG : ymdLt today ⟨today.y - 18, today.m, today.d⟩ = false := by
      rw [ymdLt]
      simp only [Bool.or_eq_false_iff, Bool.and_eq_false_iff, decide_eq_false_iff_not]
      constructor
      · omega
      · exact Or.inl (by omega)
    rw [notFuture, hG, Bool.not_false, Bool.true_and, minimumAge_eq_calendarAge,
      decide_eq_true_eq]
    show (18 : Int) ≤
      if today.m < today.m ∨ (today.m = today.m ∧ today.d < today.d)
      then today.y - (today.y - 18) - 1 else today.y - (today.y - 18)
    rw [if_neg (by omega)]
    omega
  · rw [minimumAge_eq_calendarAge]
    have hage : calendarAge (nextDay ⟨today.y - 18, today.m, today.d⟩) today < 18 := by
      by_cases hd : today.d < daysInMonth (today.y - 18) today.m
      · have hnd : nextDay ⟨today.y - 18, today.m, today.d⟩
            = ⟨today.y - 18, today.m, today.d + 1⟩ := by
          show (if today.d < daysInMonth (today.y - 18) today.m
              then (⟨today.y - 18, today.m, today.d + 1⟩ : YMD)
              else if today.m < 12 then ⟨today.y - 18, today.m + 1, 1⟩
              else ⟨today.y - 18 + 1, 1, 1⟩) = ⟨today.y - 18, today.m, today.d + 1⟩
          rw [if_pos hd]
        rw [hnd]
        show (if today.m < today.m ∨ (today.m = today.m ∧ today.d < today.d + 1)
            then today.y - (today.y - 18) - 1 else today.y - (today.y - 18)) < 18
        rw [if_pos (by omega)]
        omega
      · by_cases hm : today.m < 12
        · have hnd : nextDay ⟨today.y - 18, today.m, today.d⟩
              = ⟨today.y - 18, today.m + 1, 1⟩ := by
            show (if today.d < daysInMonth (today.y - 18) today.m
                then (⟨today.y - 18, today.m, today.d + 1⟩ : YMD)
                else if today.m < 12 then ⟨today.y - 18, today.m + 1, 1⟩
                else ⟨today.y - 18 + 1, 1, 1⟩) = ⟨today.y - 18, today.m + 1, 1⟩
            rw [if_neg hd, if_pos hm]
          rw [hnd]
          show (if today.m < today.m + 1 ∨ (today.m = today.m + 1 ∧ today.d < 1)
              then today.y - (today.y - 18) - 1 else today.y - (today.y - 18)) < 18
          rw [if_pos (by omega)]
          omega
        · have hnd : nextDay ⟨today.y - 18, today.m, today.d⟩
              = ⟨today.y - 18 + 1, 1, 1⟩ := by
            show (if today.d < daysInMonth (today.y - 18) today.m
                then (⟨today.y - 18, today.m, today.d + 1⟩ : YMD)
                else if today.m < 12 then ⟨today.y - 18, today.m + 1, 1⟩
                else ⟨today.y - 18 + 1, 1, 1⟩) = ⟨today.y - 18 + 1, 1, 1⟩
            rw [if_neg hd, if_neg hm]
          rw [hnd]
          show (if today.m < 1 ∨ (today.m = 1 ∧ today.d < 1)
              then today.y - (today.y - 18 + 1) - 1 else today.y - (today.y - 18 + 1)) < 18
          rw [if_neg (by omega)]
          omega
    rw [show decide (18 ≤ calendarAge (nextDay ⟨today.y - 18, today.m, today.d⟩) today)
        = false from decide_eq_false (by omega), Bool.and_false]

/-- Witness for C5 at the source's fixed reference date arithmetic: an
    18th-birthday candidate is accepted, one born a day later is rejected,
    and a future birth date is rejected. -/
theorem claim_C5_age_witness :
    ((notFuture ⟨2007, 10, 12⟩ ⟨2025, 10, 12⟩ && minimumAge ⟨2007, 10, 12⟩ ⟨2025, 10, 12⟩) = true)
    ∧ ((notFuture ⟨2007, 10, 13⟩ ⟨2025, 10, 12⟩
        && minimumAge ⟨2007, 10, 13⟩ ⟨2025, 10, 12⟩) = false)
    ∧ ((notFuture ⟨2025, 10, 13⟩ ⟨2025, 10, 12⟩
        && minimumAge ⟨2025, 10, 13⟩ ⟨2025, 10, 12⟩) = false) :=
  ⟨(claim_C5_age ⟨2007, 10, 12⟩ ⟨2025, 10, 12⟩).1 (by decide) |>.mpr (by decide),
   Bool.eq_false_iff.mpr (fun htrue =>
     absurd ((claim_C5_age ⟨2007, 10, 13⟩ ⟨2025, 10, 12⟩).1 (by decide) |>.mp htrue)
       (by decide)),
   (claim_C5_age ⟨2025, 10, 13⟩ ⟨2025, 10, 12⟩).2.1 (by decide)⟩

end SecureBank
